import Mathlib

/-!
Shallow embedding of the authenticated-encryption module
`src/lib/encryption.ts` (AES-256-GCM seal/open over a colon-joined
base64 envelope), together with models of the opaque Node.js
primitives it calls (`crypto.scryptSync`, the AES-256-GCM cipher,
`Buffer` base64 and UTF-8 codecs, `String.prototype.split`).

The wire-format layer (base64, splitting on the colon, UTF-8) is
embedded exactly.  The cryptographic primitives are opaque library
code; they are modelled by executable stand-ins that preserve every
property the source relies on: `scryptSync` is a deterministic
function of (password, salt, keyLength) returning keyLength bytes;
GCM is counter-mode (ciphertext = plaintext XOR a keystream that is a
function of key and nonce, hence length-preserving) plus a 16-byte
authentication tag that is a function of key, nonce and ciphertext,
recomputed and compared on decryption.
-/

/-- The standard base64 alphabet, in index order. -/
def b64chars : List Char :=
  ("ABCDEFGHIJKLMNOPQRSTUVWXYZabcdefghijklmnopqrstuvwxyz0123456789+/").data

/-- Character for a 6-bit group. -/
def b64enc (n : Nat) : Char := b64chars.getD n ('A')

/-- Value of a base64 alphabet character; `none` for every other
character.  Following Node `Buffer.from(_, 'base64')`, the URL-safe
variants of indices 62 and 63 are also accepted. -/
def b64val (c : Char) : Option Nat :=
  if 65 ≤ c.toNat ∧ c.toNat ≤ 90 then some (c.toNat - 65)
  else if 97 ≤ c.toNat ∧ c.toNat ≤ 122 then some (c.toNat - 71)
  else if 48 ≤ c.toNat ∧ c.toNat ≤ 57 then some (c.toNat + 4)
  else if c = '+' ∨ c = '-' then some 62
  else if c = '/' ∨ c = '_' then some 63
  else none

/-- Standard base64 encoding with padding, as produced by Node
`Buffer.prototype.toString('base64')`. -/
def b64encode : List Nat → List Char
  | [] => []
  | [b1] => [b64enc (b1 / 4), b64enc (b1 % 4 * 16), '=', '=']
  | [b1, b2] => [b64enc (b1 / 4), b64enc (b1 % 4 * 16 + b2 / 16), b64enc (b2 % 16 * 4), '=']
  | b1 :: b2 :: b3 :: rest =>
    b64enc (b1 / 4) :: b64enc (b1 % 4 * 16 + b2 / 16) ::
      b64enc (b2 % 16 * 4 + b3 / 64) :: b64enc (b3 % 64) :: b64encode rest

/-- Reassemble bytes from a stream of 6-bit values; a trailing group
of 2 or 3 sextets contributes 1 or 2 bytes, a lone trailing sextet
contributes nothing. -/
def sextetsToBytes : List Nat → List Nat
  | s1 :: s2 :: s3 :: s4 :: rest =>
    (s1 * 4 + s2 / 16) :: (s2 % 16 * 16 + s3 / 4) :: (s3 % 4 * 64 + s4) :: sextetsToBytes rest
  | [s1, s2, s3] => [s1 * 4 + s2 / 16, s2 % 16 * 16 + s3 / 4]
  | [s1, s2] => [s1 * 4 + s2 / 16]
  | _ => []

/-- Node `Buffer.from(s, 'base64')`: a lenient decoder that never
fails; characters outside the base64 alphabet (padding `=`,
whitespace, punctuation) are skipped, and the surviving 6-bit groups
are reassembled into bytes. -/
def b64decode (s : List Char) : List Nat := sextetsToBytes (s.filterMap b64val)

/-- A character allowed in a standard (RFC 4648 §4) base64 string:
alphabet or padding. -/
def isStdB64Char (c : Char) : Bool := b64chars.contains c || c == '='

/-- Every character of the string is from the standard base64
alphabet or padding. -/
def isStdB64String (s : List Char) : Bool := s.all isStdB64Char

/-- JavaScript `str.split(':')` on the character list of the string:
keeps empty fields, never returns an empty list. -/
def splitOnColon : List Char → List (List Char)
  | [] => [[]]
  | c :: rest =>
    if c = ':' then [] :: splitOnColon rest
    else
      match splitOnColon rest with
      | [] => [[c]]
      | h :: t => (c :: h) :: t

/-- UTF-8 encoding of one Unicode scalar value (1 to 4 bytes). -/
def utf8EncodeChar (c : Char) : List Nat :=
  let n := c.toNat
  if n < 128 then [n]
  else if n < 2048 then [192 + n / 64, 128 + n % 64]
  else if n < 65536 then [224 + n / 4096, 128 + n / 64 % 64, 128 + n % 64]
  else [240 + n / 262144, 128 + n / 4096 % 64, 128 + n / 64 % 64, 128 + n % 64]

/-- UTF-8 encoding of a character sequence, byte by byte. -/
def utf8EncodeList : List Char → List Nat
  | [] => []
  | c :: cs => utf8EncodeChar c ++ utf8EncodeList cs

/-- UTF-8 decoding as performed by Node
`Buffer.prototype.toString('utf8')`: lenient — on well-formed input it
inverts `utf8EncodeList`, and it totalises malformed input instead of
failing. -/
def utf8DecodeList : List Nat → List Char
  | [] => []
  | [b] =>
    if b < 128 then [Char.ofNat b] else [Char.ofNat 65533]
  | [b, b2] =>
    if b < 128 then Char.ofNat b :: utf8DecodeList [b2]
    else if b < 192 then Char.ofNat 65533 :: utf8DecodeList [b2]
    else if b < 224 then [Char.ofNat ((b - 192) * 64 + (b2 - 128))]
    else [Char.ofNat 65533]
  | [b, b2, b3] =>
    if b < 128 then Char.ofNat b :: utf8DecodeList [b2, b3]
    else if b < 192 then Char.ofNat 65533 :: utf8DecodeList [b2, b3]
    else if b < 224 then Char.ofNat ((b - 192) * 64 + (b2 - 128)) :: utf8DecodeList [b3]
    else if b < 240 then [Char.ofNat ((b - 224) * 4096 + (b2 - 128) * 64 + (b3 - 128))]
    else [Char.ofNat 65533]
  | b :: b2 :: b3 :: b4 :: rest =>
    if b < 128 then Char.ofNat b :: utf8DecodeList (b2 :: b3 :: b4 :: rest)
    else if b < 192 then Char.ofNat 65533 :: utf8DecodeList (b2 :: b3 :: b4 :: rest)
    else if b < 224 then Char.ofNat ((b - 192) * 64 + (b2 - 128)) :: utf8DecodeList (b3 :: b4 :: rest)
    else if b < 240 then
      Char.ofNat ((b - 224) * 4096 + (b2 - 128) * 64 + (b3 - 128)) :: utf8DecodeList (b4 :: rest)
    else
      Char.ofNat ((b - 240) * 262144 + (b2 - 128) * 4096 + (b3 - 128) * 64 + (b4 - 128)) ::
        utf8DecodeList rest

/-- Injective-by-construction numeric digest of a byte list, used to
seed the primitive models. -/
def byteSeed (l : List Nat) : Nat := l.foldl (fun a b => a * 256 + b + 1) 1

/-- Numeric digest of a string, used to seed the primitive models. -/
def strSeed (s : String) : Nat := s.data.foldl (fun a c => a * 1114112 + c.toNat + 1) 1

/-- Model of the opaque Node `crypto.scryptSync(password, salt, keyLen)`
primitive: a deterministic function of exactly (password, salt,
keyLen) returning `keyLen` bytes. -/
def scryptSync (password salt : String) (keyLen : Nat) : List Nat :=
  (List.range keyLen).map
    (fun i => (strSeed password * 2654435761 + strSeed salt * 40503 + i * 2246822519 + 3266489917) % 256)

/-- Model of the AES-256 counter-mode keystream byte `i` under a given
key and nonce: a deterministic function of (key, iv, i). -/
def keystreamByte (key iv : List Nat) (i : Nat) : Nat :=
  (byteSeed key * 2654435761 + byteSeed iv * 2246822519 + i * 3266489917 + 668265263) % 256

/-- The first `n` keystream bytes under (key, iv). -/
def keystream (key iv : List Nat) (n : Nat) : List Nat :=
  (List.range n).map (keystreamByte key iv)

/-- Model of the 16-byte GCM authentication tag: a deterministic
function of (key, nonce, ciphertext), always exactly 16 bytes, as
returned by `cipher.getAuthTag()` for `aes-256-gcm`. -/
def gcmTag (key iv ct : List Nat) : List Nat :=
  (List.range 16).map
    (fun j => (byteSeed key * 2654435761 + byteSeed iv * 2246822519 + byteSeed ct * 3266489917 + j * 374761393 + 668265263) % 256)

/-- Authentication tag lengths `decipher.setAuthTag` accepts for GCM
when no `authTagLength` option was given (in bytes). -/
def gcmTagLengths : List Nat := [4, 8, 12, 13, 14, 15, 16]

/-- Byte-wise XOR of two byte lists (counter-mode combine). -/
def xorBytes (a b : List Nat) : List Nat := List.zipWith Nat.xor a b

/-- `const ALGORITHM = 'aes-256-gcm'` of the source. -/
def ALGORITHM : String := "aes-256-gcm"

/-- `const IV_LENGTH = 16` of the source. -/
def IV_LENGTH : Nat := 16

/-- `const TAG_LENGTH = 16` of the source. -/
def TAG_LENGTH : Nat := 16

/-- `const KEY_LENGTH = 32` of the source. -/
def KEY_LENGTH : Nat := 32

/-- The failure taxonomy of `decrypt`: the format check of the source
throws `Error('Invalid encrypted format. Expected iv:tag:data')`; the
remaining constructors name the errors the Node crypto layer throws
(`createDecipheriv` on an empty IV, `setAuthTag` on a disallowed tag
length, `decipher.final` on tag mismatch). -/
inductive DecryptError where
  | formatError (msg : String)
  | invalidIV
  | invalidTagLength
  | authenticationError
deriving DecidableEq, Repr

/-- `encrypt(text, secretKey)` of the source, with the IV drawn by
`crypto.randomBytes(IV_LENGTH)` made an explicit argument. -/
def encrypt (text secretKey : String) (iv : List Nat) : String :=
  let key := scryptSync secretKey ("salt") KEY_LENGTH
  let plainBytes := utf8EncodeList text.data
  let encrypted := xorBytes plainBytes (keystream key iv plainBytes.length)
  let tag := gcmTag key iv encrypted
  String.mk (b64encode iv ++ ':' :: b64encode tag ++ ':' :: b64encode encrypted)

/-- `decrypt(encryptedText, secretKey)` of the source. -/
def decrypt (encryptedText secretKey : String) : Except DecryptError String :=
  let key := scryptSync secretKey ("salt") KEY_LENGTH
  let parts := splitOnColon encryptedText.data
  if parts.length ≠ 3 then
    Except.error (DecryptError.formatError ("Invalid encrypted format. Expected iv:tag:data"))
  else
    let iv := b64decode (parts.getD 0 [])
    let tag := b64decode (parts.getD 1 [])
    let encrypted := b64decode (parts.getD 2 [])
    if iv.length = 0 then
      Except.error DecryptError.invalidIV
    else if ¬ gcmTagLengths.contains tag.length then
      Except.error DecryptError.invalidTagLength
    else if gcmTag key iv encrypted ≠ tag then
      Except.error DecryptError.authenticationError
    else
      Except.ok (String.mk (utf8DecodeList (xorBytes encrypted (keystream key iv encrypted.length))))

/-- The key both operations derive: a function of the passphrase
alone (the salt is the module-wide constant string). -/
def deriveKey (secretKey : String) : List Nat := scryptSync secretKey ("salt") KEY_LENGTH

/-- `encrypt` with the derived key abstracted out. -/
def encryptWithKey (key : List Nat) (text : String) (iv : List Nat) : String :=
  let plainBytes := utf8EncodeList text.data
  let encrypted := xorBytes plainBytes (keystream key iv plainBytes.length)
  let tag := gcmTag key iv encrypted
  String.mk (b64encode iv ++ ':' :: b64encode tag ++ ':' :: b64encode encrypted)

/-- `decrypt` with the derived key abstracted out. -/
def decryptWithKey (key : List Nat) (encryptedText : String) : Except DecryptError String :=
  let parts := splitOnColon encryptedText.data
  if parts.length ≠ 3 then
    Except.error (DecryptError.formatError ("Invalid encrypted format. Expected iv:tag:data"))
  else
    let iv := b64decode (parts.getD 0 [])
    let tag := b64decode (parts.getD 1 [])
    let encrypted := b64decode (parts.getD 2 [])
    if iv.length = 0 then
      Except.error DecryptError.invalidIV
    else if ¬ gcmTagLengths.contains tag.length then
      Except.error DecryptError.invalidTagLength
    else if gcmTag key iv encrypted ≠ tag then
      Except.error DecryptError.authenticationError
    else
      Except.ok (String.mk (utf8DecodeList (xorBytes encrypted (keystream key iv encrypted.length))))

/-- A fixed 16-byte IV used by concrete witnesses. -/
def ivA : List Nat := [0, 1, 2, 3, 4, 5, 6, 7, 8, 9, 10, 11, 12, 13, 14, 15]

/-- A second, distinct fixed 16-byte IV used by concrete witnesses. -/
def ivB : List Nat := [16, 15, 14, 13, 12, 11, 10, 9, 8, 7, 6, 5, 4, 3, 2, 1]

/-- Decoding inverts the 6-bit encoder on its domain. -/
theorem b64val_b64enc : ∀ n < 64, b64val (b64enc n) = some n := by decide

/-- The base64 encoder never emits a colon. -/
theorem b64enc_ne_colon (n : Nat) : b64enc n ≠ ':' := by
  by_cases h : n < 64
  · exact (by decide : ∀ m < 64, b64enc m ≠ ':') n h
  · have hlen : b64chars.length ≤ n := by
      have h64 : b64chars.length = 64 := by decide
      omega
    unfold b64enc
    rw [List.getD_eq_default _ _ hlen]
    decide

/-- The 6-bit encoder only emits standard base64 characters. -/
theorem isStdB64Char_b64enc (n : Nat) : isStdB64Char (b64enc n) = true := by
  by_cases h : n < 64
  · exact (by decide : ∀ m < 64, isStdB64Char (b64enc m) = true) n h
  · have hlen : b64chars.length ≤ n := by
      have h64 : b64chars.length = 64 := by decide
      omega
    unfold b64enc
    rw [List.getD_eq_default _ _ hlen]
    decide

/-- Every character the base64 encoder emits satisfies any predicate
that holds on the 6-bit encoder range and on padding. -/
theorem b64encode_all (p : Char → Bool) (hp1 : ∀ n, p (b64enc n) = true)
    (hp2 : p ('=') = true) : ∀ bs : List Nat, (b64encode bs).all p = true
  | [] => by simp [b64encode]
  | [b1] => by simp [b64encode, hp1, hp2]
  | [b1, b2] => by simp [b64encode, hp1, hp2]
  | b1 :: b2 :: b3 :: rest => by
    simp only [b64encode, List.all_cons, hp1, hp2, Bool.true_and]
    exact b64encode_all p hp1 hp2 rest

/-- No character of a base64-encoded byte list is a colon. -/
theorem b64encode_ne_colon (bs : List Nat) : ∀ c ∈ b64encode bs, c ≠ ':' := by
  have hall := b64encode_all (fun c => decide (c ≠ ':'))
    (fun n => decide_eq_true (b64enc_ne_colon n)) (by decide) bs
  intro c hc
  exact of_decide_eq_true (List.all_eq_true.mp hall c hc)

/-- A base64-encoded byte list is a standard base64 string. -/
theorem b64encode_isStd (bs : List Nat) : isStdB64String (b64encode bs) = true :=
  b64encode_all isStdB64Char isStdB64Char_b64enc (by decide) bs

/-- The base64 encoding of a byte list is empty exactly for the empty
byte list. -/
theorem b64encode_eq_nil : ∀ bs : List Nat, b64encode bs = [] ↔ bs = []
  | [] => by simp [b64encode]
  | [b1] => by simp [b64encode]
  | [b1, b2] => by simp [b64encode]
  | b1 :: b2 :: b3 :: rest => by simp [b64encode]

/-- Lenient base64 decoding inverts encoding on genuine byte lists. -/
theorem b64decode_b64encode : ∀ bs : List Nat, (∀ b ∈ bs, b < 256) →
    b64decode (b64encode bs) = bs
  | [], _ => rfl
  | [b1], h => by
    have hb1 : b1 < 256 := h b1 (by simp)
    have h1 := b64val_b64enc (b1 / 4) (by omega)
    have h2 := b64val_b64enc (b1 % 4 * 16) (by omega)
    simp only [b64decode, b64encode, List.filterMap_cons, h1, h2,
      (by decide : b64val ('=') = none), List.filterMap_nil]
    simp only [sextetsToBytes]
    congr 1
    omega
  | [b1, b2], h => by
    have hb1 : b1 < 256 := h b1 (by simp)
    have hb2 : b2 < 256 := h b2 (by simp)
    have h1 := b64val_b64enc (b1 / 4) (by omega)
    have h2 := b64val_b64enc (b1 % 4 * 16 + b2 / 16) (by omega)
    have h3 := b64val_b64enc (b2 % 16 * 4) (by omega)
    simp only [b64decode, b64encode, List.filterMap_cons, h1, h2, h3,
      (by decide : b64val ('=') = none), List.filterMap_nil]
    simp only [sextetsToBytes]
    congr 1
    · omega
    · congr 1
      omega
  | b1 :: b2 :: b3 :: rest, h => by
    have hb1 : b1 < 256 := h b1 (by simp)
    have hb2 : b2 < 256 := h b2 (by simp)
    have hb3 : b3 < 256 := h b3 (by simp)
    have h1 := b64val_b64enc (b1 / 4) (by omega)
    have h2 := b64val_b64enc (b1 % 4 * 16 + b2 / 16) (by omega)
    have h3 := b64val_b64enc (b2 % 16 * 4 + b3 / 64) (by omega)
    have h4 := b64val_b64enc (b3 % 64) (by omega)
    have ih := b64decode_b64encode rest (fun b hb => h b (by simp [hb]))
    simp only [b64decode, b64encode, List.filterMap_cons, h1, h2, h3, h4]
    simp only [sextetsToBytes]
    simp only [b64decode] at ih
    rw [ih]
    congr 1
    · omega
    · congr 1
      · omega
      · congr 1
        omega

/-- `splitOnColon` never returns the empty list. -/
theorem splitOnColon_ne_nil : ∀ l : List Char, splitOnColon l ≠ []
  | [] => by simp [splitOnColon]
  | c :: rest => by
    simp only [splitOnColon]
    split
    · simp
    · split
      · simp
      · simp

/-- A colon-free character list is a single field. -/
theorem splitOnColon_no_colon : ∀ l : List Char, (∀ c ∈ l, c ≠ ':') →
    splitOnColon l = [l]
  | [], _ => rfl
  | c :: rest, h => by
    have hc : c ≠ ':' := h c (by simp)
    have ih := splitOnColon_no_colon rest (fun d hd => h d (by simp [hd]))
    simp only [splitOnColon, if_neg hc, ih]

/-- Splitting a list whose head field is colon-free peels off that
field. -/
theorem splitOnColon_append : ∀ a r : List Char, (∀ c ∈ a, c ≠ ':') →
    splitOnColon (a ++ ':' :: r) = a :: splitOnColon r
  | [], r, _ => by simp [splitOnColon]
  | c :: a, r, h => by
    have hc : c ≠ ':' := h c (by simp)
    have ih := splitOnColon_append a r (fun d hd => h d (by simp [hd]))
    show splitOnColon ((c :: a) ++ ':' :: r) = (c :: a) :: splitOnColon r
    rw [List.cons_append]
    simp only [splitOnColon, if_neg hc]
    rw [ih]

/-- Every Unicode scalar value is below 0x110000. -/
theorem char_toNat_lt (c : Char) : c.toNat < 1114112 := by
  rcases c.valid with h | ⟨_, h⟩
  · exact Nat.lt_trans h (by decide)
  · exact h

/-- UTF-8 encoding emits bytes. -/
theorem utf8EncodeChar_lt (c : Char) : ∀ b ∈ utf8EncodeChar c, b < 256 := by
  have hv := char_toNat_lt c
  intro b hb
  simp only [utf8EncodeChar] at hb
  split at hb <;> [skip; split at hb] <;> [skip; skip; split at hb] <;>
    simp only [List.mem_cons, List.mem_singleton, List.not_mem_nil, or_false] at hb <;>
    rcases hb with rfl | rfl | rfl | rfl <;> omega

/-- UTF-8 encoding of a character list emits bytes. -/
theorem utf8EncodeList_lt : ∀ l : List Char, ∀ b ∈ utf8EncodeList l, b < 256
  | [] => by simp [utf8EncodeList]
  | c :: cs => by
    intro b hb
    simp only [utf8EncodeList, List.mem_append] at hb
    rcases hb with hb | hb
    · exact utf8EncodeChar_lt c b hb
    · exact utf8EncodeList_lt cs b hb

/-- A character encodes to at least one byte. -/
theorem utf8EncodeChar_ne_nil (c : Char) : utf8EncodeChar c ≠ [] := by
  simp only [utf8EncodeChar]
  split <;> [skip; split] <;> [skip; skip; split] <;> simp

/-- UTF-8 encoding of a character list is empty exactly for the empty
list. -/
theorem utf8EncodeList_eq_nil : ∀ l : List Char, utf8EncodeList l = [] ↔ l = []
  | [] => by simp [utf8EncodeList]
  | c :: cs => by
    simp only [utf8EncodeList, List.append_eq_nil]
    simp [utf8EncodeChar_ne_nil c]

/-- Decoding a UTF-8 stream that starts with the encoding of a
character yields that character and continues behind it. -/
theorem utf8DecodeList_encodeChar (c : Char) (r : List Nat) :
    utf8DecodeList (utf8EncodeChar c ++ r) = c :: utf8DecodeList r := by
  have hv := char_toNat_lt c
  by_cases h1 : c.toNat < 128
  · have henc : utf8EncodeChar c = [c.toNat] := by
      unfold utf8EncodeChar
      rw [if_pos h1]
    rw [henc]
    rcases r with _ | ⟨x, _ | ⟨y, _ | ⟨z, r⟩⟩⟩
    · rw [List.append_nil, utf8DecodeList.eq_2, if_pos h1, Char.ofNat_toNat]
      rfl
    · rw [(by rfl : [c.toNat] ++ [x] = [c.toNat, x]), utf8DecodeList.eq_3, if_pos h1,
        Char.ofNat_toNat]
    · rw [(by rfl : [c.toNat] ++ [x, y] = [c.toNat, x, y]), utf8DecodeList.eq_4, if_pos h1,
        Char.ofNat_toNat]
    · rw [(by rfl : [c.toNat] ++ (x :: y :: z :: r) = c.toNat :: x :: y :: z :: r),
        utf8DecodeList.eq_5, if_pos h1, Char.ofNat_toNat]
  · by_cases h2 : c.toNat < 2048
    · have henc : utf8EncodeChar c = [192 + c.toNat / 64, 128 + c.toNat % 64] := by
        unfold utf8EncodeChar
        rw [if_neg h1, if_pos h2]
      have hA : ¬ (192 + c.toNat / 64 < 128) := by omega
      have hB : ¬ (192 + c.toNat / 64 < 192) := by omega
      have hC : 192 + c.toNat / 64 < 224 := by omega
      have he : (192 + c.toNat / 64 - 192) * 64 + (128 + c.toNat % 64 - 128) = c.toNat := by
        omega
      rw [henc]
      rcases r with _ | ⟨x, _ | ⟨y, r⟩⟩
      · rw [List.append_nil, utf8DecodeList.eq_3, if_neg hA, if_neg hB, if_pos hC, he,
          Char.ofNat_toNat]
        rfl
      · rw [List.cons_append, List.cons_append, List.nil_append, utf8DecodeList.eq_4,
          if_neg hA, if_neg hB, if_pos hC, he, Char.ofNat_toNat]
      · rw [List.cons_append, List.cons_append, List.nil_append, utf8DecodeList.eq_5,
          if_neg hA, if_neg hB, if_pos hC, he, Char.ofNat_toNat]
    · by_cases h3 : c.toNat < 65536
      · have henc : utf8EncodeChar c =
            [224 + c.toNat / 4096, 128 + c.toNat / 64 % 64, 128 + c.toNat % 64] := by
          unfold utf8EncodeChar
          rw [if_neg h1, if_neg h2, if_pos h3]
        have hA : ¬ (224 + c.toNat / 4096 < 128) := by omega
        have hB : ¬ (224 + c.toNat / 4096 < 192) := by omega
        have hC : ¬ (224 + c.toNat / 4096 < 224) := by omega
        have hD : 224 + c.toNat / 4096 < 240 := by omega
        have he : (224 + c.toNat / 4096 - 224) * 4096 + (128 + c.toNat / 64 % 64 - 128) * 64 +
            (128 + c.toNat % 64 - 128) = c.toNat := by
          omega
        rw [henc]
        rcases r with _ | ⟨x, r⟩
        · rw [List.append_nil, utf8DecodeList.eq_4, if_neg hA, if_neg hB, if_neg hC, if_pos hD,
            he, Char.ofNat_toNat]
          rfl
        · rw [List.cons_append, List.cons_append, List.cons_append, List.nil_append,
            utf8DecodeList.eq_5, if_neg hA, if_neg hB, if_neg hC, if_pos hD, he,
            Char.ofNat_toNat]
      · have henc : utf8EncodeChar c = [240 + c.toNat / 262144, 128 + c.toNat / 4096 % 64,
            128 + c.toNat / 64 % 64, 128 + c.toNat % 64] := by
          unfold utf8EncodeChar
          rw [if_neg h1, if_neg h2, if_neg h3]
        have hA : ¬ (240 + c.toNat / 262144 < 128) := by omega
        have hB : ¬ (240 + c.toNat / 262144 < 192) := by omega
        have hC : ¬ (240 + c.toNat / 262144 < 224) := by omega
        have hD : ¬ (240 + c.toNat / 262144 < 240) := by omega
        have he : (240 + c.toNat / 262144 - 240) * 262144 + (128 + c.toNat / 4096 % 64 - 128) * 4096 +
            (128 + c.toNat / 64 % 64 - 128) * 64 + (128 + c.toNat % 64 - 128) = c.toNat := by
          omega
        rw [henc, List.cons_append, List.cons_append, List.cons_append, List.cons_append,
          List.nil_append, utf8DecodeList.eq_5, if_neg hA, if_neg hB, if_neg hC, if_neg hD, he,
          Char.ofNat_toNat]

/-- UTF-8 decoding inverts UTF-8 encoding on character lists. -/
theorem utf8DecodeList_encodeList : ∀ l : List Char, utf8DecodeList (utf8EncodeList l) = l
  | [] => rfl
  | c :: cs => by
    simp only [utf8EncodeList, utf8DecodeList_encodeChar, utf8DecodeList_encodeList cs]

/-- The keystream has exactly the requested length. -/
theorem keystream_length (key iv : List Nat) (n : Nat) : (keystream key iv n).length = n := by
  simp [keystream]

/-- Keystream values are bytes. -/
theorem keystream_lt (key iv : List Nat) (n : Nat) : ∀ b ∈ keystream key iv n, b < 256 := by
  intro b hb
  simp only [keystream, List.mem_map] at hb
  obtain ⟨i, _, rfl⟩ := hb
  exact Nat.mod_lt _ (by omega)

/-- The modelled GCM tag is exactly 16 bytes. -/
theorem gcmTag_length (key iv ct : List Nat) : (gcmTag key iv ct).length = 16 := by
  simp [gcmTag]

/-- GCM tag values are bytes. -/
theorem gcmTag_lt (key iv ct : List Nat) : ∀ b ∈ gcmTag key iv ct, b < 256 := by
  intro b hb
  simp only [gcmTag, List.mem_map] at hb
  obtain ⟨i, _, rfl⟩ := hb
  exact Nat.mod_lt _ (by omega)

/-- Length of a byte-wise XOR. -/
theorem xorBytes_length (a b : List Nat) : (xorBytes a b).length = min a.length b.length := by
  simp [xorBytes]

/-- XOR-ing with the same equal-length list twice gives the original
back. -/
theorem xorBytes_cancel : ∀ a b : List Nat, a.length = b.length →
    xorBytes (xorBytes a b) b = a
  | [], [], _ => rfl
  | [], _ :: _, h => by simp at h
  | _ :: _, [], h => by simp at h
  | x :: a, y :: b, h => by
    have ih := xorBytes_cancel a b (by simpa using h)
    simp only [xorBytes, List.zipWith_cons_cons] at ih ⊢
    rw [ih]
    have hx : Nat.xor (Nat.xor x y) y = x := Nat.xor_cancel_right y x
    rw [hx]

/-- XOR of bytes is a byte. -/
theorem xorBytes_lt : ∀ a b : List Nat, (∀ x ∈ a, x < 256) → (∀ x ∈ b, x < 256) →
    ∀ x ∈ xorBytes a b, x < 256
  | [], _, _, _ => by simp [xorBytes]
  | _ :: _, [], _, _ => by simp [xorBytes]
  | x :: a, y :: b, ha, hb => by
    intro z hz
    simp only [xorBytes, List.zipWith_cons_cons, List.mem_cons] at hz
    rcases hz with rfl | hz
    · simpa using Nat.xor_lt_two_pow (n := 8) (ha x (by simp)) (hb y (by simp))
    · exact xorBytes_lt a b (fun u hu => ha u (by simp [hu])) (fun u hu => hb u (by simp [hu])) z hz

/-- The ciphertext bytes `encrypt` produces (counter mode: plaintext
XOR keystream). -/
def encCt (text k : String) (iv : List Nat) : List Nat :=
  xorBytes (utf8EncodeList text.data) (keystream (deriveKey k) iv (utf8EncodeList text.data).length)

/-- The authentication tag `encrypt` produces. -/
def encTag (text k : String) (iv : List Nat) : List Nat :=
  gcmTag (deriveKey k) iv (encCt text k iv)

/-- The characters of an envelope, unfolded and reassociated into
head-field form. -/
theorem encrypt_data (text k : String) (iv : List Nat) :
    (encrypt text k iv).data =
      b64encode iv ++ ':' :: (b64encode (encTag text k iv) ++ ':' :: b64encode (encCt text k iv)) := by
  show (b64encode iv ++ ':' :: b64encode (encTag text k iv)) ++ ':' :: b64encode (encCt text k iv) = _
  rw [List.append_assoc, List.cons_append]

/-- Ciphertext bytes are bytes. -/
theorem encCt_lt (text k : String) (iv : List Nat) : ∀ b ∈ encCt text k iv, b < 256 :=
  xorBytes_lt _ _ (utf8EncodeList_lt text.data) (keystream_lt _ _ _)

/-- The ciphertext has exactly the plaintext's UTF-8 byte length. -/
theorem encCt_length (text k : String) (iv : List Nat) :
    (encCt text k iv).length = (utf8EncodeList text.data).length := by
  simp [encCt, xorBytes_length, keystream_length]

/-- Splitting an envelope produced by `encrypt` on the colon yields
exactly the three base64 fields. -/
theorem encrypt_split (text k : String) (iv : List Nat) :
    splitOnColon (encrypt text k iv).data =
      [b64encode iv, b64encode (encTag text k iv), b64encode (encCt text k iv)] := by
  rw [encrypt_data,
    splitOnColon_append _ _ (b64encode_ne_colon iv),
    splitOnColon_append _ _ (b64encode_ne_colon (encTag text k iv)),
    splitOnColon_no_colon _ (b64encode_ne_colon (encCt text k iv))]

/-- The derived key, in the form both operations spell it. -/
theorem deriveKey_def (k : String) : scryptSync k ("salt") KEY_LENGTH = deriveKey k := rfl

/-- Stepping lemma: on an input that splits into exactly three
fields, `decrypt` runs the post-format pipeline on those fields. -/
theorem decrypt_three_parts (s k : String) (A B C : List Char)
    (hs : splitOnColon s.data = [A, B, C]) :
    decrypt s k =
      (if (b64decode A).length = 0 then Except.error DecryptError.invalidIV
      else if ¬ gcmTagLengths.contains (b64decode B).length then
        Except.error DecryptError.invalidTagLength
      else if gcmTag (deriveKey k) (b64decode A) (b64decode C) ≠ b64decode B then
        Except.error DecryptError.authenticationError
      else
        Except.ok (String.mk (utf8DecodeList (xorBytes (b64decode C)
          (keystream (deriveKey k) (b64decode A) (b64decode C).length))))) := by
  simp only [decrypt, hs]
  rw [if_neg (show ¬ (([A, B, C] : List (List Char)).length ≠ 3) by simp)]
  rfl

/-- Core round-trip: decrypting an envelope produced by `encrypt`
with the same passphrase recovers the plaintext. -/
theorem decrypt_encrypt (text k : String) (iv : List Nat) (hlen : iv.length = 16)
    (hbytes : ∀ b ∈ iv, b < 256) : decrypt (encrypt text k iv) k = Except.ok text := by
  have hdec_iv : b64decode (b64encode iv) = iv := b64decode_b64encode iv hbytes
  have hdec_tag : b64decode (b64encode (encTag text k iv)) = encTag text k iv :=
    b64decode_b64encode _ (gcmTag_lt _ _ _)
  have hdec_ct : b64decode (b64encode (encCt text k iv)) = encCt text k iv :=
    b64decode_b64encode _ (encCt_lt text k iv)
  rw [decrypt_three_parts _ k _ _ _ (encrypt_split text k iv), hdec_iv, hdec_tag, hdec_ct]
  rw [if_neg (show ¬ iv.length = 0 by omega)]
  rw [if_neg (show ¬ ¬ gcmTagLengths.contains (encTag text k iv).length by
    rw [encTag, gcmTag_length]
    decide)]
  rw [if_neg (show ¬ gcmTag (deriveKey k) iv (encCt text k iv) ≠ encTag text k iv by
    rw [encTag]
    simp)]
  have hks : xorBytes (encCt text k iv)
      (keystream (deriveKey k) iv (encCt text k iv).length) = utf8EncodeList text.data := by
    rw [encCt_length]
    exact xorBytes_cancel _ _ (by rw [keystream_length])
  rw [hks, utf8DecodeList_encodeList]

/-- Once the three-part check has passed, no branch of `decrypt`
returns a `formatError`. -/
theorem no_formatError_of_three_parts (s k : String) (A B C : List Char)
    (hs : splitOnColon s.data = [A, B, C]) (msg : String) :
    decrypt s k ≠ Except.error (DecryptError.formatError msg) := by
  rw [decrypt_three_parts s k A B C hs]
  split_ifs <;> simp

/-- A three-field split exists whenever the split has length three. -/
theorem three_parts_of_length (s : String) (h3 : (splitOnColon s.data).length = 3) :
    ∃ A B C, splitOnColon s.data = [A, B, C] := by
  rcases hsp : splitOnColon s.data with _ | ⟨A, _ | ⟨B, _ | ⟨C, _ | ⟨D, t⟩⟩⟩⟩ <;>
    rw [hsp] at h3 <;> simp at h3
  exact ⟨A, B, C, rfl⟩

/-- Claim C1: for every plaintext string `p` (including the empty
string) and every passphrase `k`, decrypting the envelope produced by
`encrypt` (seal) with the same passphrase returns exactly the original
plaintext, for every well-formed 16-byte random IV. -/
theorem claim_c1_roundtrip (p k : String) (iv : List Nat) (hlen : iv.length = IV_LENGTH)
    (hbytes : ∀ b ∈ iv, b < 256) : decrypt (encrypt p k iv) k = Except.ok p :=
  decrypt_encrypt p k iv hlen hbytes

/-- Witness for C1 at a concrete multi-byte plaintext and passphrase. -/
theorem claim_c1_witness : decrypt (encrypt ("héllo ✓") ("secret") ivA) ("secret") =
    Except.ok ("héllo ✓") :=
  claim_c1_roundtrip ("héllo ✓") ("secret") ivA (by decide) (by decide)

/-- Claim C2: every input whose split on the colon does not yield
exactly 3 parts makes `decrypt` fail immediately with the format
error message, before any base64 decoding or decryption. -/
theorem claim_c2_part_count (s k : String) (h : (splitOnColon s.data).length ≠ 3) :
    decrypt s k =
      Except.error (DecryptError.formatError ("Invalid encrypted format. Expected iv:tag:data")) := by
  simp only [decrypt]
  rw [if_pos h]

/-- Witness for C2 at the two-field envelope of the spec scenario. -/
theorem claim_c2_witness : decrypt ("abc:def") ("k") =
    Except.error (DecryptError.formatError ("Invalid encrypted format. Expected iv:tag:data")) :=
  claim_c2_part_count ("abc:def") ("k") (by decide)

/-- Claim C9: key derivation is deterministic and uses the
module-constant salt: the key either operation computes is
`deriveKey`, a function of the passphrase alone, and `encrypt` and
`decrypt` factor through it identically. -/
theorem claim_c9_key_derivation :
    (∀ k : String, scryptSync k ("salt") KEY_LENGTH = deriveKey k) ∧
    (∀ text k : String, ∀ iv : List Nat, encrypt text k iv = encryptWithKey (deriveKey k) text iv) ∧
    (∀ s k : String, decrypt s k = decryptWithKey (deriveKey k) s) :=
  ⟨fun _ => rfl, fun _ _ _ => rfl, fun _ _ => rfl⟩

/-- Claim C3 counterexample: a 3-part envelope whose third field
contains a space — not a valid standard-base64 character — is not
rejected with a format error; Node's lenient base64 decoder skips the
invalid character and decryption succeeds. -/
theorem claim_c3_counterexample :
    (splitOnColon ("AAECAwQFBgcICQoLDA0ODw==:4ZJD9KVWB7hpGst8Ld6PQA==:XRs= ").data).length = 3 ∧
    isStdB64String ((splitOnColon
      ("AAECAwQFBgcICQoLDA0ODw==:4ZJD9KVWB7hpGst8Ld6PQA==:XRs= ").data).getD 2 []) = false ∧
    decrypt ("AAECAwQFBgcICQoLDA0ODw==:4ZJD9KVWB7hpGst8Ld6PQA==:XRs= ") ("k") =
      Except.ok ("hi") := by
  refine ⟨by decide, by decide, ?_⟩
  rfl

/-- Claim C3 (amended): on a 3-part envelope `decrypt` never raises a
format error at all — base64 decoding is lenient and cannot fail, so
a field that is not valid base64 is decoded by skipping the invalid
characters, and any failure surfaces later as an IV, tag-length or
authentication error. -/
theorem claim_c3_amended (s k : String) (h3 : (splitOnColon s.data).length = 3)
    (msg : String) : decrypt s k ≠ Except.error (DecryptError.formatError msg) := by
  obtain ⟨A, B, C, hs⟩ := three_parts_of_length s h3
  exact no_formatError_of_three_parts s k A B C hs msg

/-- Witness for the amended C3 at a concrete 3-part non-base64 input. -/
theorem claim_c3_witness : decrypt ("a:b:c") ("k") ≠
    Except.error (DecryptError.formatError ("x")) :=
  claim_c3_amended ("a:b:c") ("k") (by decide) ("x")

/-- Claim C4: whenever GCM tag verification fails on a 3-part
envelope that reaches it — the recomputed tag under the supplied
passphrase differs from the transmitted tag, be it because the
passphrase differs from the sealing one or because the nonce, tag or
ciphertext field was altered — `decrypt` fails with the
authentication error and returns no plaintext at all. -/
theorem claim_c4_auth_failure (s k : String) (A B C : List Char)
    (hs : splitOnColon s.data = [A, B, C])
    (hiv : (b64decode A).length ≠ 0)
    (htl : (b64decode B).length ∈ gcmTagLengths)
    (hver : gcmTag (deriveKey k) (b64decode A) (b64decode C) ≠ b64decode B) :
    decrypt s k = Except.error DecryptError.authenticationError := by
  rw [decrypt_three_parts s k A B C hs]
  rw [if_neg hiv]
  rw [if_neg (show ¬ ¬ gcmTagLengths.contains (b64decode B).length by simp [htl])]
  rw [if_pos hver]

/-- Witness for C4: an envelope sealed under passphrase `k1` opened
under `k2` hits a failing tag verification and is rejected. -/
theorem claim_c4_witness :
    decrypt ("AAECAwQFBgcICQoLDA0ODw==:hTbnmEn6q1wNvm8g0YIz5A==:UxE=") ("k2") =
      Except.error DecryptError.authenticationError :=
  claim_c4_auth_failure ("AAECAwQFBgcICQoLDA0ODw==:hTbnmEn6q1wNvm8g0YIz5A==:UxE=") ("k2")
    (("AAECAwQFBgcICQoLDA0ODw==").data) (("hTbnmEn6q1wNvm8g0YIz5A==").data) (("UxE=").data)
    (by decide) (by decide) (by decide) (by decide)

/-- Claim C5 counterexample: sealing the empty plaintext yields an
envelope whose third (ciphertext) field is the empty string, so not
every field of every envelope is non-empty. -/
theorem claim_c5_counterexample :
    (splitOnColon (encrypt ("") ("k") ivA).data).length = 3 ∧
    (splitOnColon (encrypt ("") ("k") ivA).data).getD 2 [] = [] := by
  refine ⟨by decide, by decide⟩

/-- Claim C5 (amended): every envelope produced by `encrypt` splits
on the colon into exactly 3 fields of standard base64 characters; the
nonce and tag fields are always non-empty, and the ciphertext field
is empty exactly when the plaintext is empty. -/
theorem claim_c5_amended (p k : String) (iv : List Nat) (hlen : iv.length = IV_LENGTH) :
    (splitOnColon (encrypt p k iv).data).length = 3 ∧
    (splitOnColon (encrypt p k iv).data).getD 0 [] ≠ [] ∧
    (splitOnColon (encrypt p k iv).data).getD 1 [] ≠ [] ∧
    (∀ f ∈ splitOnColon (encrypt p k iv).data, isStdB64String f = true) ∧
    ((splitOnColon (encrypt p k iv).data).getD 2 [] = [] ↔ p = ("")) := by
  rw [encrypt_split]
  refine ⟨rfl, ?_, ?_, ?_, ?_⟩
  · show b64encode iv ≠ []
    have h16 : iv.length = 16 := hlen
    rw [Ne, b64encode_eq_nil, ← List.length_eq_zero]
    omega
  · show b64encode (encTag p k iv) ≠ []
    rw [Ne, b64encode_eq_nil, ← List.length_eq_zero, encTag, gcmTag_length]
    omega
  · intro f hf
    simp only [List.mem_cons, List.not_mem_nil, or_false] at hf
    rcases hf with rfl | rfl | rfl <;> exact b64encode_isStd _
  · show b64encode (encCt p k iv) = [] ↔ p = ("")
    rw [b64encode_eq_nil, ← List.length_eq_zero, encCt_length, List.length_eq_zero,
      utf8EncodeList_eq_nil]
    constructor
    · intro hd
      exact String.ext (hd.trans (rfl))
    · intro hp
      exact congrArg String.data hp

/-- Witness for the amended C5 at a concrete plaintext and IV. -/
theorem claim_c5_witness :
    (splitOnColon (encrypt ("hi") ("k") ivA).data).length = 3 ∧
    (splitOnColon (encrypt ("hi") ("k") ivA).data).getD 0 [] ≠ [] ∧
    (splitOnColon (encrypt ("hi") ("k") ivA).data).getD 1 [] ≠ [] ∧
    (∀ f ∈ splitOnColon (encrypt ("hi") ("k") ivA).data, isStdB64String f = true) ∧
    ((splitOnColon (encrypt ("hi") ("k") ivA).data).getD 2 [] = [] ↔ ("hi" : String) = ("")) :=
  claim_c5_amended ("hi") ("k") ivA (by decide)

/-- Claim C6: in every envelope produced by `encrypt` under a
16-byte IV, the first field decodes to exactly 16 bytes and the
second field decodes to exactly 16 bytes. -/
theorem claim_c6_nonce_tag_lengths (p k : String) (iv : List Nat)
    (hlen : iv.length = IV_LENGTH) (hbytes : ∀ b ∈ iv, b < 256) :
    (b64decode ((splitOnColon (encrypt p k iv).data).getD 0 [])).length = 16 ∧
    (b64decode ((splitOnColon (encrypt p k iv).data).getD 1 [])).length = 16 := by
  rw [encrypt_split]
  constructor
  · show (b64decode (b64encode iv)).length = 16
    rw [b64decode_b64encode iv hbytes]
    exact hlen
  · show (b64decode (b64encode (encTag p k iv))).length = 16
    have h := b64decode_b64encode (encTag p k iv) (gcmTag_lt _ _ _)
    rw [h, encTag, gcmTag_length]

/-- Witness for C6 at a concrete plaintext, passphrase and IV. -/
theorem claim_c6_witness :
    (b64decode ((splitOnColon (encrypt ("hi") ("k") ivA).data).getD 0 [])).length = 16 ∧
    (b64decode ((splitOnColon (encrypt ("hi") ("k") ivA).data).getD 1 [])).length = 16 :=
  claim_c6_nonce_tag_lengths ("hi") ("k") ivA (by decide) (by decide)

/-- Claim C7: the third field of every envelope produced by `encrypt`
decodes to a byte sequence whose length equals the UTF-8 byte length
of the plaintext (counter mode adds no padding). -/
theorem claim_c7_ciphertext_length (p k : String) (iv : List Nat) :
    (b64decode ((splitOnColon (encrypt p k iv).data).getD 2 [])).length =
      (utf8EncodeList p.data).length := by
  rw [encrypt_split]
  show (b64decode (b64encode (encCt p k iv))).length = _
  rw [b64decode_b64encode _ (encCt_lt p k iv), encCt_length]

/-- Claim C8: with two distinct fresh 16-byte nonces, `encrypt` on
identical plaintext and passphrase yields two different envelopes,
and both decrypt under that passphrase to the original plaintext. -/
theorem claim_c8_nondeterminism (p k : String) (iv1 iv2 : List Nat)
    (h1 : iv1.length = IV_LENGTH) (h2 : iv2.length = IV_LENGTH)
    (hb1 : ∀ b ∈ iv1, b < 256) (hb2 : ∀ b ∈ iv2, b < 256) (hne : iv1 ≠ iv2) :
    encrypt p k iv1 ≠ encrypt p k iv2 ∧
    decrypt (encrypt p k iv1) k = Except.ok p ∧
    decrypt (encrypt p k iv2) k = Except.ok p := by
  refine ⟨?_, decrypt_encrypt p k iv1 h1 hb1, decrypt_encrypt p k iv2 h2 hb2⟩
  intro he
  apply hne
  have hd := congrArg (fun s => splitOnColon s.data) he
  simp only at hd
  rw [encrypt_split, encrypt_split] at hd
  injection hd with hb hrest
  calc iv1 = b64decode (b64encode iv1) := (b64decode_b64encode iv1 hb1).symm
    _ = b64decode (b64encode iv2) := by rw [hb]
    _ = iv2 := b64decode_b64encode iv2 hb2

/-- Witness for C8 at two concrete distinct IVs. -/
theorem claim_c8_witness :
    encrypt ("hi") ("k") ivA ≠ encrypt ("hi") ("k") ivB ∧
    decrypt (encrypt ("hi") ("k") ivA) ("k") = Except.ok ("hi") ∧
    decrypt (encrypt ("hi") ("k") ivB) ("k") = Except.ok ("hi") :=
  claim_c8_nondeterminism ("hi") ("k") ivA ivB (by decide) (by decide) (by decide) (by decide)
    (by decide)

/-- Claim C10: base64 contains no colon, so every envelope `encrypt`
produces has exactly two colons, splits into exactly 3 parts, and
`decrypt` on it — under any passphrase — can never take the
format-error branch. -/
theorem claim_c10_format_branch_unreachable (p k k2 : String) (iv : List Nat) :
    (encrypt p k iv).data.count (':') = 2 ∧
    (splitOnColon (encrypt p k iv).data).length = 3 ∧
    ∀ msg : String, decrypt (encrypt p k iv) k2 ≠ Except.error (DecryptError.formatError msg) := by
  refine ⟨?_, ?_, ?_⟩
  · have hA : (b64encode iv).count (':') = 0 :=
      List.count_eq_zero.mpr (fun h => b64encode_ne_colon iv _ h rfl)
    have hB : (b64encode (encTag p k iv)).count (':') = 0 :=
      List.count_eq_zero.mpr (fun h => b64encode_ne_colon _ _ h rfl)
    have hC : (b64encode (encCt p k iv)).count (':') = 0 :=
      List.count_eq_zero.mpr (fun h => b64encode_ne_colon _ _ h rfl)
    rw [encrypt_data]
    simp [List.count_append, List.count_cons, hA, hB, hC]
  · rw [encrypt_split]
    rfl
  · intro msg
    exact no_formatError_of_three_parts _ k2 _ _ _ (encrypt_split p k iv) msg
